import Mathlib

/-!
# Verification of the Data-Entry form pipeline

Shallow embedding of the form-processing pipeline of the Data-Entry-App
repository and proofs about it.

Embedded components:

* Validator (backend/Validator.py): per-field format predicates built from
  the regular expressions of the source, and validate_data, which folds them
  over an extracted field map.
* RequestFormPreparer (Request_Form_Preparer.py): color registry, border
  detection and cropping, and the prepare_form pipeline.  The OpenCV calls
  (contour finding, resizing) are kept abstract as function parameters; the
  surrounding control flow is embedded.
* ImagePreprocessor (backend/ImagePreprocessor.py): binarize_image and
  adjust_brightness_contrast.
* The patient-records dashboard (frontend Settings.js): average-confidence
  statistic and the sorted/filtered record views.

The backend Python sources are present only as compiled bytecode whose
non-ASCII bytes were destroyed; the regular expressions, error messages,
registry keys, field names and call structure used below are the ones
recovered verbatim from that bytecode, and where a numeric constant or a
branch was unrecoverable the definition follows the specification text and
says so in its doc comment.

Machine integers are modelled as Nat / Int, Python and JavaScript numbers as
exact rationals, fallible calls as Except / Option.
-/

namespace DataEntry

/-! ## Validator: per-field regular expressions

Source regexes recovered from the bytecode: ten digits for Medicare and
phone numbers, the 24H prefix plus five digits for request numbers, eight
alphanumerics for provider numbers, and strptime with format %d/%m/%Y for
the two dates.  Python re.match anchored with a dollar sign also matches
just before a single newline that ends the string; matchDollar embeds
exactly that documented semantics.  The digit class is modelled as the
ASCII digits (the extracted OCR strings are ASCII). -/

/-- Value of an ASCII digit character. -/
def digitVal (c : Char) : Nat := c.toNat - 48

/-- Core of a pattern of exactly n digits: the whole list is n ASCII digits. -/
def digitsExactly (n : Nat) (l : List Char) : Bool :=
  l.length == n && l.all Char.isDigit

/-- Core of the provider-number pattern: exactly eight ASCII alphanumerics,
the character class A-Z a-z 0-9 of the source regex. -/
def alnumExactly8 (l : List Char) : Bool :=
  l.length == 8 && l.all (fun c => c.isAlpha || c.isDigit)

/-- Core of the request-number pattern: the literal 24H followed by exactly
five ASCII digits. -/
def requestCore (l : List Char) : Bool :=
  match l with
  | a :: b :: c :: rest =>
    if a = '2' ∧ b = '4' ∧ c = 'H' then digitsExactly 5 rest else false
  | _ => false

/-- Semantics of Python re.match on a pattern of the form caret core dollar:
the core must consume the whole string, except that the dollar anchor also
matches just before a newline at the end of the string, so a single trailing
newline is tolerated. -/
def matchDollar (core : List Char → Bool) (s : String) : Bool :=
  core s.data ||
    (match s.data.getLast? with
     | some c => c == '\n' && core s.data.dropLast
     | none => false)

/-- is_valid_medicare_number from backend/Validator.py: re.match of ten
digits between caret and dollar. -/
def is_valid_medicare_number (s : String) : Bool :=
  matchDollar (digitsExactly 10) s

/-- is_valid_phone_number from backend/Validator.py: same ten-digit
pattern. -/
def is_valid_phone_number (s : String) : Bool :=
  matchDollar (digitsExactly 10) s

/-- is_valid_request_number from backend/Validator.py: literal 24H then five
digits. -/
def is_valid_request_number (s : String) : Bool :=
  matchDollar requestCore s

/-- is_valid_provider_number from backend/Validator.py: eight
alphanumerics. -/
def is_valid_provider_number (s : String) : Bool :=
  matchDollar alnumExactly8 s

/-! ### strptime with format %d/%m/%Y

Python strptime compiles the format to a regex: the day field is the
alternation 3[01] or [12] digit or 0[1-9] or [1-9], the month field is
1[0-2] or 0[1-9] or [1-9], the year field is exactly four digits, separated
by literal slashes; the whole string must be consumed.  The parsed numbers
are then handed to the date constructor, which rejects a day beyond the
length of the month and a year below one.  The token matchers below return
every alternative the regex could take, in the order of the alternation, and
the parser keeps the first complete parse, as the regex engine does. -/

/-- All ways the strptime day field can match a prefix of the input, in
regex alternation order, each with the value read and the rest of the
input. -/
def dayMatches : List Char → List (Nat × List Char)
  | c1 :: c2 :: rest =>
    (if c1 = '3' ∧ (c2 = '0' ∨ c2 = '1') then [(30 + digitVal c2, rest)] else []) ++
    (if (c1 = '1' ∨ c1 = '2') ∧ c2.isDigit = true then
        [(10 * digitVal c1 + digitVal c2, rest)] else []) ++
    (if c1 = '0' ∧ c2.isDigit = true ∧ c2 ≠ '0' then [(digitVal c2, rest)] else []) ++
    (if c1.isDigit = true ∧ c1 ≠ '0' then [(digitVal c1, c2 :: rest)] else [])
  | [c1] => if c1.isDigit = true ∧ c1 ≠ '0' then [(digitVal c1, [])] else []
  | [] => []

/-- All ways the strptime month field can match a prefix of the input, in
regex alternation order. -/
def monthMatches : List Char → List (Nat × List Char)
  | c1 :: c2 :: rest =>
    (if c1 = '1' ∧ (c2 = '0' ∨ c2 = '1' ∨ c2 = '2') then [(10 + digitVal c2, rest)] else []) ++
    (if c1 = '0' ∧ c2.isDigit = true ∧ c2 ≠ '0' then [(digitVal c2, rest)] else []) ++
    (if c1.isDigit = true ∧ c1 ≠ '0' then [(digitVal c1, c2 :: rest)] else [])
  | [c1] => if c1.isDigit = true ∧ c1 ≠ '0' then [(digitVal c1, [])] else []
  | [] => []

/-- The strptime year field: exactly four digits. -/
def yearMatch : List Char → Option (Nat × List Char)
  | a :: b :: c :: d :: rest =>
    if a.isDigit = true ∧ b.isDigit = true ∧ c.isDigit = true ∧ d.isDigit = true then
      some (1000 * digitVal a + 100 * digitVal b + 10 * digitVal c + digitVal d, rest)
    else none
  | _ => none

/-- All complete parses of the input as day slash month slash four-digit
year, in the backtracking order of the regex engine. -/
def dmyParses (l : List Char) : List (Nat × Nat × Nat) :=
  (dayMatches l).flatMap (fun dm =>
    match dm.2 with
    | '/' :: r2 =>
      (monthMatches r2).flatMap (fun mm =>
        match mm.2 with
        | '/' :: r4 =>
          match yearMatch r4 with
          | some (y, []) => [(dm.1, mm.1, y)]
          | _ => []
        | _ => [])
    | _ => [])

/-- The parse strptime commits to: the first complete match. -/
def strptimeDMY (s : String) : Option (Nat × Nat × Nat) :=
  (dmyParses s.data).head?

/-- Gregorian leap-year rule, as used by the Python date constructor. -/
def isLeapYear (y : Nat) : Bool :=
  (y % 4 == 0 && y % 100 != 0) || y % 400 == 0

/-- Number of days of a month, as used by the Python date constructor. -/
def daysInMonth (y m : Nat) : Nat :=
  if m = 2 then (if isLeapYear y then 29 else 28)
  else if m = 4 ∨ m = 6 ∨ m = 9 ∨ m = 11 then 30
  else 31

/-- is_valid_date from backend/Validator.py: strptime with format %d/%m/%Y
succeeds, meaning the regex consumes the whole string and the date
constructor accepts the three numbers; a ValueError is caught and reported
as False.  The regex already bounds the month by twelve and the day by
thirty-one; the constructor additionally needs a positive year and a day
within the month. -/
def is_valid_date (s : String) : Bool :=
  match strptimeDMY s with
  | some (d, m, y) => 1 ≤ y && d ≤ daysInMonth y m
  | none => false

/-! ### validate_data

The field names, dispatch order and error messages are recovered verbatim
from the bytecode.  The control flow is modelled from the spec: a field is
checked only when present in the input map, and an entry is produced only
for a failing field. -/

/-- The rule table: field name, predicate, error message, in the dispatch
order of the source. -/
def fieldRules : List (String × (String → Bool) × String) :=
  [("medicare_number", is_valid_medicare_number, "Invalid Medicare Number format."),
   ("home_phone_number", is_valid_phone_number, "Invalid Home Phone Number format."),
   ("mobile_phone_number", is_valid_phone_number, "Invalid Mobile Phone Number format."),
   ("request_number", is_valid_request_number, "Invalid Request Number format."),
   ("provider_number", is_valid_provider_number, "Invalid Provider Number format."),
   ("date_of_birth", is_valid_date, "Invalid Date of Birth format."),
   ("request_date", is_valid_date, "Invalid Request Date format.")]

/-- Lookup of a field in the extracted field map (a Python dict, modelled as
an association list with the first binding authoritative). -/
def lookupField (data : List (String × String)) (f : String) : Option String :=
  match data.find? (fun p => p.1 == f) with
  | some p => some p.2
  | none => none

/-- Modelled from the spec: validate_data checks each field of the rule
table that is present in the input map and collects an error entry for
exactly the failing ones.  The table contents and the messages are the ones
of the source; the present-and-failing guard follows the specification text
because the branch bytes of the compiled source are destroyed. -/
def validate_data (data : List (String × String)) : List (String × String) :=
  fieldRules.filterMap (fun rule =>
    match lookupField data rule.1 with
    | some v => if rule.2.1 v then none else some (rule.1, rule.2.2)
    | none => none)

/-! ## RequestFormPreparer

From Request_Form_Preparer.py.  Images are matrices of 8-bit samples: a
gray image is a list of rows of Nat samples, a color image a list of rows of
BGR triples.  The OpenCV collaborators whose internals the pipeline never
inspects are abstracted as function parameters: the contour stage (color
conversion, inRange mask, morphological close then open, findContours,
contourArea and boundingRect results bundled per contour) and the resizer.
The control flow around them, recovered from the bytecode branch messages
and from the spec, is embedded concretely. -/

/-- A gray image: rows of 8-bit samples. -/
abbrev GrayImage := List (List Nat)

/-- A color image: rows of BGR triples of 8-bit samples. -/
abbrev BgrImage := List (List (Nat × Nat × Nat))

/-- Number of rows of an image. -/
def imgHeight (img : BgrImage) : Nat := img.length

/-- Number of columns of an image, read off the first row as numpy shape
does on the rectangular arrays the pipeline produces. -/
def imgWidth (img : BgrImage) : Nat :=
  match img with
  | [] => 0
  | row :: _ => row.length

/-- An HSV color range of the registry. -/
structure ColorRange where
  lower : Nat × Nat × Nat
  upper : Nat × Nat × Nat

/-- Modelled from the spec: the registry keys blue and black are recovered
from the bytecode; the numeric HSV bounds are not (their bytes are
destroyed), so representative in-range values stand in for them.  No claim
below depends on the numeric bounds. -/
def COLOR_RANGES : List (String × ColorRange) :=
  [("blue", ⟨(100, 150, 50), (140, 255, 255)⟩),
   ("black", ⟨(0, 0, 0), (179, 255, 50)⟩)]

/-- The failure modes of the preparer that surface as exceptions.  The
unsupported-color failure is the ValueError with message beginning
Unsupported border color that prepare_form raises, carrying the supported
keys; the spec names it UnsupportedColorError. -/
inductive PrepError where
  | unsupportedColor (supported : List String)
deriving DecidableEq, Repr

/-- The result of the contour stage for one contour: its area as reported
by contourArea and its axis-aligned bounding rectangle as reported by
boundingRect. -/
structure Contour where
  area : ℚ
  x : Nat
  y : Nat
  w : Nat
  h : Nat

/-- The abstracted OpenCV contour stage: from an image and a color range to
the list of external contours of the cleaned mask. -/
abbrev ContourFinder := BgrImage → ColorRange → List Contour

/-- The abstracted cv2.resize with area interpolation: image and target
size to resized image. -/
abbrev Resizer := BgrImage → Nat × Nat → BgrImage

/-- Modelled from the spec: the fixed symmetric padding added around the
detected bounding rectangle, a small double-digit pixel count whose exact
value is destroyed in the bytecode.  No claim depends on its value. -/
def borderPadding : Nat := 20

/-- Modelled from the spec: the default minimum contour area, a few
thousand square pixels; the exact constant is destroyed in the bytecode. -/
def minContourAreaDefault : ℚ := 5000

/-- Python max over a nonempty list keyed by area: keeps the first of the
maxima, replacing the running best only on a strictly larger key. -/
def maxByArea : Contour → List Contour → Contour
  | best, [] => best
  | best, c :: rest => maxByArea (if best.area < c.area then c else best) rest

/-- The numpy sub-image img of rows y1 to y2 and columns x1 to x2,
half-open, as produced by slicing; an empty range yields an empty image. -/
def cropRect (img : BgrImage) (x1 y1 x2 y2 : Nat) : BgrImage :=
  ((img.drop y1).take (y2 - y1)).map (fun row => (row.drop x1).take (x2 - x1))

/-- The body of crop_to_border after the registry lookup succeeded: run the
contour stage; with no contours, or none reaching the area threshold, print
the degraded message and return the original image; otherwise take the
largest surviving contour, pad its bounding rectangle clamped to the image
bounds, and return that sub-image. -/
def cropDetected (finder : ContourFinder) (img : BgrImage) (cr : ColorRange)
    (min_contour_area : ℚ) : BgrImage :=
  let contours := finder img cr
  if contours.isEmpty then img
  else
    match contours.filter (fun c => min_contour_area ≤ c.area) with
    | [] => img
    | v :: valid_rest =>
      let largest := maxByArea v valid_rest
      let x1 := largest.x - borderPadding
      let y1 := largest.y - borderPadding
      let x2 := min (largest.x + largest.w + borderPadding) (imgWidth img)
      let y2 := min (largest.y + largest.h + borderPadding) (imgHeight img)
      cropRect img x1 y1 x2 y2

/-- crop_to_border from Request_Form_Preparer.py.  Look up the color range;
an unknown color is the unsupported-color failure (modelled from the spec:
the registry lookup branch bytes are destroyed, and the spec has both entry
points fail with UnsupportedColorError); with a known color the cropping
body, which always returns an image. -/
def crop_to_border (finder : ContourFinder) (img : BgrImage)
    (border_color : String) (min_contour_area : ℚ) : Except PrepError BgrImage :=
  match COLOR_RANGES.find? (fun p => p.1 == border_color) with
  | none => .error (.unsupportedColor (COLOR_RANGES.map (fun p => p.1)))
  | some entry => .ok (cropDetected finder img entry.2 min_contour_area)

/-- scale_image from Request_Form_Preparer.py: a direct resize through the
abstracted cv2.resize with area interpolation. -/
def scale_image (resize : Resizer) (img : BgrImage) (target_size : Nat × Nat) : BgrImage :=
  resize img target_size

/-- prepare_form from Request_Form_Preparer.py: reject a border color that
is not a registry key with the unsupported-color ValueError (this guard and
its message are recovered from the bytecode), then crop to the border and
scale to the target size. -/
def prepare_form (finder : ContourFinder) (resize : Resizer) (img : BgrImage)
    (target_size : Nat × Nat) (border_color : String) : Except PrepError BgrImage :=
  if (COLOR_RANGES.find? (fun p => p.1 == border_color)).isNone then
    .error (.unsupportedColor (COLOR_RANGES.map (fun p => p.1)))
  else
    match crop_to_border finder img border_color minContourAreaDefault with
    | .error e => .error e
    | .ok cropped => .ok (scale_image resize cropped target_size)

/-! ## ImagePreprocessor

From backend/ImagePreprocessor.py. -/

/-- The OpenCV 8-bit BGR-to-gray conversion: the fixed-point weighted sum
with coefficients 4899, 9617 and 1868 over 2 to the 14, rounded. -/
def bgr2gray (p : Nat × Nat × Nat) : Nat :=
  (4899 * p.2.2 + 9617 * p.2.1 + 1868 * p.1 + 8192) / 16384

/-- binarize_image from backend/ImagePreprocessor.py: convert to gray, then
cv2.threshold with THRESH_BINARY and maximum value 255, which maps a sample
strictly above the threshold to 255 and every other sample to 0. -/
def binarize_image (img : BgrImage) (threshold : Nat) : GrayImage :=
  img.map (fun row => row.map (fun p => if threshold < bgr2gray p then 255 else 0))

/-- Clamp an integer sample into the 8-bit range. -/
def clampByte (x : ℤ) : ℤ := min 255 (max 0 x)

/-- The Python int conversion on a rational: truncation toward zero. -/
def pyInt (q : ℚ) : ℤ := if q < 0 then Int.ceil q else Int.floor q

/-- The remapping adjust_brightness_contrast applies to both of its 0 to
100 UI arguments, recovered from the bytecode: int of the argument minus 50
times 2.55, sending the neutral value 50 to 0, 0 to minus 127 and 100 to
127.  Exact rationals agree with the float arithmetic of the source on the
whole 0 to 100 argument range. -/
def remapAdjust (x : Nat) : ℤ := pyInt (((x : ℚ) - 50) * (2.55 : ℚ))

/-- The denominator of the contrast gain of the source: 127 times one
minus the remapped contrast over 127.  It is zero exactly when the
remapped contrast is 127, reached at the contrast argument 100. -/
def contrastDenom (c : ℤ) : ℚ := 127 * (1 - (c : ℚ) / 127)

/-- The contrast gain of the source, applied to the remapped contrast c:
127 times one plus c over 127, over the denominator above, which is 127
plus c over 127 minus c. -/
def contrastFactor (c : ℤ) : ℚ :=
  127 * (1 + (c : ℚ) / 127) / contrastDenom c

/-- One sample through the additive shortcut branch, cv2.add of the
remapped brightness, saturating in the 8-bit range. -/
def adjustSampleAdd (b : ℤ) (v : Nat) : Nat :=
  (clampByte ((v : ℤ) + b)).toNat

/-- One sample through the affine branch, cv2.addWeighted with gain f and
offset the remapped brightness minus f times 127, rounded to the nearest
integer and saturating in the 8-bit range (the final numpy clip before the
cast to uint8 is subsumed). -/
def adjustSampleAffine (f : ℚ) (b : ℤ) (v : Nat) : Nat :=
  (clampByte (round (f * (v : ℚ) + ((b : ℚ) - f * 127)))).toNat

/-- adjust_brightness_contrast from backend/ImagePreprocessor.py, recovered
from the bytecode.  Both 0 to 100 arguments are first remapped by
remapAdjust.  When the remapped contrast is zero (argument 50), the
additive shortcut applied sample-wise; otherwise the contrast gain is
computed first, and when its denominator is zero (contrast argument 100)
the division raises ZeroDivisionError, modelled as none; else the affine
transform applied sample-wise.  Exact rationals stand in for the float
arithmetic of the source. -/
def adjust_brightness_contrast (img : BgrImage) (brightness contrast : Nat) :
    Option BgrImage :=
  if remapAdjust contrast = 0 then
    some (img.map (fun row => row.map (fun p =>
      (adjustSampleAdd (remapAdjust brightness) p.1,
       adjustSampleAdd (remapAdjust brightness) p.2.1,
       adjustSampleAdd (remapAdjust brightness) p.2.2))))
  else if contrastDenom (remapAdjust contrast) = 0 then none
  else
    some (img.map (fun row => row.map (fun p =>
      (adjustSampleAffine (contrastFactor (remapAdjust contrast)) (remapAdjust brightness) p.1,
       adjustSampleAffine (contrastFactor (remapAdjust contrast)) (remapAdjust brightness) p.2.1,
       adjustSampleAffine (contrastFactor (remapAdjust contrast)) (remapAdjust brightness) p.2.2))))

/-- The sample of an image at row i and column j, when present. -/
def pixelAt (img : List (List α)) (i j : Nat) : Option α := do
  let row ← img[i]?
  row[j]?

/-! ## Patient-records dashboard

From the PatientRecordsDashboard component concatenated into
frontend/src/components/Settings.js.  JavaScript values that occur in the
records are modelled by JsValue, with null and undefined collapsed into
null, which the loose inequality against null of the source treats
identically; numbers are exact rationals. -/

/-- A JavaScript record field value: a string, a number, or null. -/
inductive JsValue where
  | str (s : String)
  | num (q : ℚ)
  | null
deriving DecidableEq

/-- A fetched patient record: a JavaScript object, its own enumerable
fields in order. -/
structure DashRecord where
  fields : List (String × JsValue)

/-- Property access on a record; a missing property reads as null, the
collapsed undefined. -/
def getField (r : DashRecord) (k : String) : JsValue :=
  match r.fields.find? (fun p => p.1 == k) with
  | some p => p.2
  | none => .null

/-- JavaScript addition as exercised by the confidence sum: numeric.  The
string-coercing cases of the plus operator are outside the numeric fragment
this dashboard feeds it and are mapped to null. -/
def jsAdd : JsValue → JsValue → JsValue
  | .num a, .num b => .num (a + b)
  | _, _ => .null

/-- Array reduce with no initial value: a TypeError on an empty array,
modelled as none, and otherwise a left fold from the first element. -/
def jsReduce (f : α → α → α) : List α → Option α
  | [] => none
  | x :: xs => some (xs.foldl f x)

/-- Number toFixed with two digits: the integer numerator closest to one
hundred times the value, the larger one on a tie, over one hundred. -/
def jsToFixed2 (x : ℚ) : ℚ := (round (100 * x) : ℤ) / 100

/-- The confidenceScores binding of calculateAverageConfidence: the records
whose ocr_confidence is not loosely equal to null, mapped to those
confidences. -/
def confidenceScores (records : List DashRecord) : List JsValue :=
  (records.filter (fun r => !(getField r "ocr_confidence" == JsValue.null))).map
    (fun r => getField r "ocr_confidence")

/-- calculateAverageConfidence from the dashboard: keep the records whose
ocr_confidence is not loosely equal to null, read their confidences, and if
any remain return the mean rounded to two decimals, else the number 0.  The
returned value is modelled numerically (the source renders the string form
of the same number); none models an outcome outside the numeric fragment,
and the claim shows it never occurs on numeric data. -/
def calculateAverageConfidence (records : List DashRecord) : Option ℚ :=
  if 0 < (confidenceScores records).length then
    match jsReduce jsAdd (confidenceScores records) with
    | some (.num s) => some (jsToFixed2 (s / ((confidenceScores records).length : ℚ)))
    | _ => none
  else some 0

/-- The sort configuration state: a column key or null, and a direction
string. -/
structure SortConfig where
  key : Option String
  direction : String

/-- The sort comparator of sortedRecords, parametric in the two JavaScript
primitives it calls out to: the relational less-than on field values and
the numeric value of a Date built from a field value.  On the scan_date key
it returns the signed difference of the dates, otherwise minus one, one or
zero from the relational comparisons, flipped by the direction. -/
def recordComparator (jsLt : JsValue → JsValue → Bool) (dateVal : JsValue → ℚ)
    (cfg : SortConfig) (k : String) (a b : DashRecord) : ℚ :=
  if k = "scan_date" then
    if cfg.direction = "asc" then dateVal (getField a k) - dateVal (getField b k)
    else dateVal (getField b k) - dateVal (getField a k)
  else
    if jsLt (getField a k) (getField b k) then (if cfg.direction = "asc" then -1 else 1)
    else if jsLt (getField b k) (getField a k) then (if cfg.direction = "asc" then 1 else -1)
    else 0

/-- Array sort on the spread copy of the records: a comparator-driven
reordering; the in-place sort acts on the fresh copy made by the spread, so
the embedding sorts a copy and the original list value is untouched. -/
def jsSortCopy (cmp : DashRecord → DashRecord → ℚ) (l : List DashRecord) : List DashRecord :=
  l.mergeSort (fun a b => decide (cmp a b ≤ 0))

/-- sortedRecords from the dashboard: with no sort key the records array
itself, otherwise the sorted spread copy. -/
def sortedRecords (jsLt : JsValue → JsValue → Bool) (dateVal : JsValue → ℚ)
    (records : List DashRecord) (cfg : SortConfig) : List DashRecord :=
  match cfg.key with
  | none => records
  | some k => jsSortCopy (recordComparator jsLt dateVal cfg k) records

/-- The search predicate of filteredRecords: some field value, stringified
and lowercased, contains the lowercased search term; the optional chain
makes a null value fail the test.  Parametric in the JavaScript primitives
number-to-string and lowercased-substring-containment. -/
def valueMatches (numToString : ℚ → String) (containsLower : String → String → Bool)
    (term : String) : JsValue → Bool
  | .str s => containsLower s term
  | .num q => containsLower (numToString q) term
  | .null => false

/-- filteredRecords from the dashboard: the sorted records whose field
values match the search term. -/
def filteredRecords (jsLt : JsValue → JsValue → Bool) (dateVal : JsValue → ℚ)
    (numToString : ℚ → String) (containsLower : String → String → Bool)
    (records : List DashRecord) (cfg : SortConfig) (term : String) : List DashRecord :=
  (sortedRecords jsLt dateVal records cfg).filter
    (fun r => r.fields.any (fun p => valueMatches numToString containsLower term p.2))

/-! ## Claim-side definitions

Independent renderings of the wordings of the specification, to be compared
with the embedded code above. -/

/-- Claim side: the whole character list consists of exactly n ASCII decimal
digits. -/
def specExactDigits (n : Nat) (l : List Char) : Prop :=
  l.length = n ∧ ∀ c ∈ l, c.isDigit = true

/-- Claim side: the literal prefix 24H followed by exactly five decimal
digits, over the whole list. -/
def specRequestFormat (l : List Char) : Prop :=
  ∃ ds, l = '2' :: '4' :: 'H' :: ds ∧ specExactDigits 5 ds

/-- The number denoted by a list of ASCII digits, most significant first. -/
def natOfDigits (l : List Char) : Nat :=
  l.foldl (fun a c => 10 * a + digitVal c) 0

/-- Claim side: the whole string parses as a real calendar date in
day slash month slash four-digit-year format: a one- or two-digit day
field, a one- or two-digit month field and a four-digit year field
separated by slashes, denoting an actual Gregorian date with a positive
year. -/
def specRealDate (s : String) : Prop :=
  ∃ ds ms ys : List Char,
    s.data = ds ++ '/' :: (ms ++ '/' :: ys) ∧
    (∀ c ∈ ds, c.isDigit = true) ∧ 1 ≤ ds.length ∧ ds.length ≤ 2 ∧
    (∀ c ∈ ms, c.isDigit = true) ∧ 1 ≤ ms.length ∧ ms.length ≤ 2 ∧
    (∀ c ∈ ys, c.isDigit = true) ∧ ys.length = 4 ∧
    1 ≤ natOfDigits ys ∧
    1 ≤ natOfDigits ms ∧ natOfDigits ms ≤ 12 ∧
    1 ≤ natOfDigits ds ∧ natOfDigits ds ≤ daysInMonth (natOfDigits ys) (natOfDigits ms)

/-- Claim side: the numeric ocr_confidence values of the records, in
order; a record with a null, missing or non-numeric confidence contributes
nothing. -/
def numericConfidences (records : List DashRecord) : List ℚ :=
  records.filterMap (fun r =>
    match getField r "ocr_confidence" with
    | .num q => some q
    | _ => none)

/-! ## Helper lemmas -/

theorem char_eq_of_toNat_eq {c d : Char} (h : c.toNat = d.toNat) : c = d :=
  Char.eq_of_val_eq (UInt32.toNat.inj h)

theorem isDigit_iff {c : Char} : c.isDigit = true ↔ 48 ≤ c.toNat ∧ c.toNat ≤ 57 := by
  simp [Char.isDigit]
  constructor
  · rintro ⟨h1, h2⟩; exact ⟨h1, h2⟩
  · rintro ⟨h1, h2⟩; exact ⟨h1, h2⟩

theorem mem_ite_nil {α : Type} {p : Prop} [Decidable p] {a : α} {l : List α} :
    a ∈ (if p then l else []) ↔ p ∧ a ∈ l := by
  split <;> simp_all

theorem digitsExactly_iff {n : Nat} {l : List Char} :
    digitsExactly n l = true ↔ specExactDigits n l := by
  simp [digitsExactly, specExactDigits, List.all_eq_true]

theorem requestCore_iff {l : List Char} :
    requestCore l = true ↔ specRequestFormat l := by
  rcases l with _ | ⟨a, _ | ⟨b, _ | ⟨c, rest⟩⟩⟩ <;>
    simp [requestCore, specRequestFormat]
  constructor
  · rintro ⟨⟨rfl, rfl, rfl⟩, h⟩
    exact ⟨rest, ⟨rfl, rfl, rfl, rfl⟩, digitsExactly_iff.mp h⟩
  · rintro ⟨ds, ⟨rfl, rfl, rfl, rfl⟩, hds⟩
    exact ⟨⟨rfl, rfl, rfl⟩, digitsExactly_iff.mpr hds⟩

theorem matchDollar_iff {core : List Char → Bool} {spec : List Char → Prop}
    (hcore : ∀ l, core l = true ↔ spec l) (s : String) :
    matchDollar core s = true ↔
      spec s.data ∨ ∃ l, s.data = l ++ ['\n'] ∧ spec l := by
  unfold matchDollar
  rcases List.eq_nil_or_concat s.data with h | ⟨L, b, h⟩
  · rw [h]
    simp [hcore]
  · rw [List.concat_eq_append] at h
    rw [h]
    rw [List.getLast?_concat, List.dropLast_concat]
    simp only [Bool.or_eq_true, Bool.and_eq_true, beq_iff_eq, hcore]
    constructor
    · rintro (h1 | ⟨rfl, h2⟩)
      · exact Or.inl h1
      · exact Or.inr ⟨L, rfl, h2⟩
    · rintro (h1 | ⟨l2, heq, h2⟩)
      · exact Or.inl h1
      · obtain ⟨hL, hb⟩ := List.append_inj' heq rfl
        cases hL
        have hb2 : b = '\n' := by injection hb
        exact Or.inr ⟨hb2, h2⟩

/-! ## Digit-character arithmetic -/

theorem digitVal_le_9 {c : Char} (h : c.isDigit = true) : digitVal c ≤ 9 := by
  obtain ⟨h1, h2⟩ := isDigit_iff.mp h
  unfold digitVal
  omega

theorem digitVal_pos {c : Char} (h : c.isDigit = true) (hne : c ≠ '0') :
    1 ≤ digitVal c := by
  obtain ⟨h1, h2⟩ := isDigit_iff.mp h
  have hz : c.toNat ≠ 48 := fun he => hne (char_eq_of_toNat_eq (by rw [he]; rfl))
  unfold digitVal
  omega

theorem char_ne_zero_of_pos {c : Char} (h : 1 ≤ digitVal c) : c ≠ '0' := by
  intro he
  rw [he] at h
  simp [digitVal] at h

theorem char_of_digitVal {c d : Char} (h : c.isDigit = true) (hd : d.isDigit = true)
    (hv : digitVal c = digitVal d) : c = d := by
  obtain ⟨h1, h2⟩ := isDigit_iff.mp h
  obtain ⟨h3, h4⟩ := isDigit_iff.mp hd
  apply char_eq_of_toNat_eq
  unfold digitVal at hv
  omega

theorem natOfDigits_singleton (c : Char) : natOfDigits [c] = digitVal c := by
  simp [natOfDigits]

theorem natOfDigits_pair (c d : Char) :
    natOfDigits [c, d] = 10 * digitVal c + digitVal d := by
  simp [natOfDigits]

theorem natOfDigits_quad (a b c d : Char) :
    natOfDigits [a, b, c, d] =
      1000 * digitVal a + 100 * digitVal b + 10 * digitVal c + digitVal d := by
  simp [natOfDigits]
  ring

/-! ## Soundness and completeness of the strptime token matchers -/

theorem dayMatches_sound {l : List Char} {vr : Nat × List Char}
    (h : vr ∈ dayMatches l) :
    ∃ ds, l = ds ++ vr.2 ∧ (∀ c ∈ ds, c.isDigit = true) ∧
      (ds.length = 1 ∨ ds.length = 2) ∧ natOfDigits ds = vr.1 ∧
      1 ≤ vr.1 ∧ vr.1 ≤ 31 := by
  match l with
  | [] => cases h
  | [c1] =>
    simp only [dayMatches, mem_ite_nil, List.mem_singleton] at h
    obtain ⟨⟨hd, hne⟩, rfl⟩ := h
    refine ⟨[c1], rfl, by simpa using hd, Or.inl rfl, natOfDigits_singleton c1, ?_, ?_⟩
    · exact digitVal_pos hd hne
    · exact le_trans (digitVal_le_9 hd) (by norm_num)
  | c1 :: c2 :: rest =>
    simp only [dayMatches, List.mem_append, mem_ite_nil, List.mem_singleton] at h
    rcases h with (((⟨⟨rfl, h01⟩, rfl⟩ | ⟨⟨h12, hd2⟩, rfl⟩) | ⟨⟨rfl, hd2, hne2⟩, rfl⟩) |
      ⟨⟨hd1, hne1⟩, rfl⟩)
    · refine ⟨['3', c2], rfl, ?_, Or.inr rfl, ?_, ?_, ?_⟩
      · rcases h01 with rfl | rfl <;> decide
      · rw [natOfDigits_pair]
        rcases h01 with rfl | rfl <;> rfl
      · dsimp only
        omega
      · rcases h01 with rfl | rfl <;> (dsimp only; decide)
    · have hd1 : c1.isDigit = true := by rcases h12 with rfl | rfl <;> decide
      have hv1 : 1 ≤ digitVal c1 ∧ digitVal c1 ≤ 2 := by
        rcases h12 with rfl | rfl <;> exact ⟨by decide, by decide⟩
      refine ⟨[c1, c2], rfl, ?_, Or.inr rfl, natOfDigits_pair c1 c2, ?_, ?_⟩
      · intro c hc
        rcases List.mem_cons.mp hc with rfl | hc2
        · exact hd1
        · rw [List.mem_singleton] at hc2
          subst hc2
          exact hd2
      · omega
      · have := digitVal_le_9 hd2
        omega
    · refine ⟨['0', c2], rfl, ?_, Or.inr rfl, ?_, ?_, ?_⟩
      · intro c hc
        rcases List.mem_cons.mp hc with rfl | hc2
        · decide
        · rw [List.mem_singleton] at hc2
          subst hc2
          exact hd2
      · rw [natOfDigits_pair]
        have h0 : digitVal '0' = 0 := rfl
        omega
      · exact digitVal_pos hd2 hne2
      · exact le_trans (digitVal_le_9 hd2) (by norm_num)
    · refine ⟨[c1], rfl, by simpa using hd1, Or.inl rfl, natOfDigits_singleton c1, ?_, ?_⟩
      · exact digitVal_pos hd1 hne1
      · exact le_trans (digitVal_le_9 hd1) (by norm_num)

theorem monthMatches_sound {l : List Char} {vr : Nat × List Char}
    (h : vr ∈ monthMatches l) :
    ∃ ms, l = ms ++ vr.2 ∧ (∀ c ∈ ms, c.isDigit = true) ∧
      (ms.length = 1 ∨ ms.length = 2) ∧ natOfDigits ms = vr.1 ∧
      1 ≤ vr.1 ∧ vr.1 ≤ 12 := by
  match l with
  | [] => cases h
  | [c1] =>
    simp only [monthMatches, mem_ite_nil, List.mem_singleton] at h
    obtain ⟨⟨hd, hne⟩, rfl⟩ := h
    refine ⟨[c1], rfl, by simpa using hd, Or.inl rfl, natOfDigits_singleton c1, ?_, ?_⟩
    · exact digitVal_pos hd hne
    · exact le_trans (digitVal_le_9 hd) (by norm_num)
  | c1 :: c2 :: rest =>
    simp only [monthMatches, List.mem_append, mem_ite_nil, List.mem_singleton] at h
    rcases h with ((⟨⟨rfl, h012⟩, rfl⟩ | ⟨⟨rfl, hd2, hne2⟩, rfl⟩) | ⟨⟨hd1, hne1⟩, rfl⟩)
    · refine ⟨['1', c2], rfl, ?_, Or.inr rfl, ?_, ?_, ?_⟩
      · rcases h012 with rfl | rfl | rfl <;> decide
      · rw [natOfDigits_pair]
        rcases h012 with rfl | rfl | rfl <;> rfl
      · dsimp only
        omega
      · rcases h012 with rfl | rfl | rfl <;> (dsimp only; decide)
    · refine ⟨['0', c2], rfl, ?_, Or.inr rfl, ?_, ?_, ?_⟩
      · intro c hc
        rcases List.mem_cons.mp hc with rfl | hc2
        · decide
        · rw [List.mem_singleton] at hc2
          subst hc2
          exact hd2
      · rw [natOfDigits_pair]
        have h0 : digitVal '0' = 0 := rfl
        omega
      · exact digitVal_pos hd2 hne2
      · exact le_trans (digitVal_le_9 hd2) (by norm_num)
    · refine ⟨[c1], rfl, by simpa using hd1, Or.inl rfl, natOfDigits_singleton c1, ?_, ?_⟩
      · exact digitVal_pos hd1 hne1
      · exact le_trans (digitVal_le_9 hd1) (by norm_num)

theorem dayMatches_complete_one {c : Char} (r : List Char) (hd : c.isDigit = true)
    (hpos : 1 ≤ digitVal c) : (digitVal c, r) ∈ dayMatches (c :: r) := by
  have hne : c ≠ '0' := char_ne_zero_of_pos hpos
  cases r with
  | nil =>
    simp only [dayMatches, mem_ite_nil, List.mem_singleton]
    exact ⟨⟨hd, hne⟩, by simp⟩
  | cons c2 rest =>
    simp only [dayMatches, List.mem_append, mem_ite_nil, List.mem_singleton]
    exact Or.inr ⟨⟨hd, hne⟩, by simp⟩

theorem monthMatches_complete_one {c : Char} (r : List Char) (hd : c.isDigit = true)
    (hpos : 1 ≤ digitVal c) : (digitVal c, r) ∈ monthMatches (c :: r) := by
  have hne : c ≠ '0' := char_ne_zero_of_pos hpos
  cases r with
  | nil =>
    simp only [monthMatches, mem_ite_nil, List.mem_singleton]
    exact ⟨⟨hd, hne⟩, by simp⟩
  | cons c2 rest =>
    simp only [monthMatches, List.mem_append, mem_ite_nil, List.mem_singleton]
    exact Or.inr ⟨⟨hd, hne⟩, by simp⟩

theorem dayMatches_complete_two {c1 c2 : Char} (r : List Char)
    (h1 : c1.isDigit = true) (h2 : c2.isDigit = true)
    (hlo : 1 ≤ 10 * digitVal c1 + digitVal c2)
    (hhi : 10 * digitVal c1 + digitVal c2 ≤ 31) :
    (10 * digitVal c1 + digitVal c2, r) ∈ dayMatches (c1 :: c2 :: r) := by
  simp only [dayMatches, List.mem_append, mem_ite_nil, List.mem_singleton]
  have h9 := digitVal_le_9 h1
  have h9b := digitVal_le_9 h2
  rcases Nat.lt_or_ge (digitVal c1) 1 with hv | hv
  · have hv0 : digitVal c1 = 0 := by omega
    have hc1 : c1 = '0' := char_of_digitVal h1 (by decide) (by rw [hv0]; rfl)
    have hc2pos : 1 ≤ digitVal c2 := by omega
    refine Or.inl (Or.inr ⟨⟨hc1, h2, char_ne_zero_of_pos hc2pos⟩, ?_⟩)
    have : 10 * digitVal c1 + digitVal c2 = digitVal c2 := by omega
    rw [this]
  · rcases Nat.lt_or_ge (digitVal c1) 3 with hv3 | hv3
    · have hc1 : c1 = '1' ∨ c1 = '2' := by
        rcases Nat.lt_or_ge (digitVal c1) 2 with hv2 | hv2
        · refine Or.inl (char_of_digitVal h1 (by decide) ?_)
          have hx : digitVal '1' = 1 := rfl
          omega
        · refine Or.inr (char_of_digitVal h1 (by decide) ?_)
          have hx : digitVal '2' = 2 := rfl
          omega
      exact Or.inl (Or.inl (Or.inr ⟨⟨hc1, h2⟩, by simp⟩))
    · have hv33 : digitVal c1 = 3 := by omega
      have hc1 : c1 = '3' := char_of_digitVal h1 (by decide) (by rw [hv33]; rfl)
      have hd2 : digitVal c2 ≤ 1 := by omega
      have hc2 : c2 = '0' ∨ c2 = '1' := by
        rcases Nat.lt_or_ge (digitVal c2) 1 with hw | hw
        · refine Or.inl (char_of_digitVal h2 (by decide) ?_)
          have hx : digitVal '0' = 0 := rfl
          omega
        · refine Or.inr (char_of_digitVal h2 (by decide) ?_)
          have hx : digitVal '1' = 1 := rfl
          omega
      refine Or.inl (Or.inl (Or.inl ⟨⟨hc1, hc2⟩, ?_⟩))
      have : 10 * digitVal c1 + digitVal c2 = 30 + digitVal c2 := by omega
      rw [this]

theorem monthMatches_complete_two {c1 c2 : Char} (r : List Char)
    (h1 : c1.isDigit = true) (h2 : c2.isDigit = true)
    (hlo : 1 ≤ 10 * digitVal c1 + digitVal c2)
    (hhi : 10 * digitVal c1 + digitVal c2 ≤ 12) :
    (10 * digitVal c1 + digitVal c2, r) ∈ monthMatches (c1 :: c2 :: r) := by
  simp only [monthMatches, List.mem_append, mem_ite_nil, List.mem_singleton]
  have h9 := digitVal_le_9 h1
  have h9b := digitVal_le_9 h2
  rcases Nat.lt_or_ge (digitVal c1) 1 with hv | hv
  · have hv0 : digitVal c1 = 0 := by omega
    have hc1 : c1 = '0' := char_of_digitVal h1 (by decide) (by rw [hv0]; rfl)
    have hc2pos : 1 ≤ digitVal c2 := by omega
    refine Or.inl (Or.inr ⟨⟨hc1, h2, char_ne_zero_of_pos hc2pos⟩, ?_⟩)
    have : 10 * digitVal c1 + digitVal c2 = digitVal c2 := by omega
    rw [this]
  · have hv1 : digitVal c1 = 1 := by omega
    have hc1 : c1 = '1' := char_of_digitVal h1 (by decide) (by rw [hv1]; rfl)
    have hd2 : digitVal c2 ≤ 2 := by omega
    have hc2 : c2 = '0' ∨ c2 = '1' ∨ c2 = '2' := by
      rcases Nat.lt_or_ge (digitVal c2) 1 with hw | hw
      · refine Or.inl (char_of_digitVal h2 (by decide) ?_)
        have hx : digitVal '0' = 0 := rfl
        omega
      · rcases Nat.lt_or_ge (digitVal c2) 2 with hw2 | hw2
        · refine Or.inr (Or.inl (char_of_digitVal h2 (by decide) ?_))
          have hx : digitVal '1' = 1 := rfl
          omega
        · refine Or.inr (Or.inr (char_of_digitVal h2 (by decide) ?_))
          have hx : digitVal '2' = 2 := rfl
          omega
    refine Or.inl (Or.inl ⟨⟨hc1, hc2⟩, ?_⟩)
    have : 10 * digitVal c1 + digitVal c2 = 10 + digitVal c2 := by omega
    rw [this]

theorem yearMatch_sound {l : List Char} {y : Nat} {r : List Char}
    (h : yearMatch l = some (y, r)) :
    ∃ ys, l = ys ++ r ∧ ys.length = 4 ∧ (∀ c ∈ ys, c.isDigit = true) ∧
      natOfDigits ys = y := by
  match l with
  | [] => cases h
  | [a] => cases h
  | [a, b] => cases h
  | [a, b, c] => cases h
  | a :: b :: c :: d :: rest =>
    simp only [yearMatch] at h
    split at h
    · rename_i hdig
      obtain ⟨h1, h2, h3, h4⟩ := hdig
      have := Option.some.inj h
      have hy : 1000 * digitVal a + 100 * digitVal b + 10 * digitVal c + digitVal d = y :=
        congrArg Prod.fst this
      have hr : rest = r := congrArg Prod.snd this
      subst hr
      refine ⟨[a, b, c, d], rfl, rfl, ?_, by rw [natOfDigits_quad]; exact hy⟩
      intro x hx
      simp only [List.mem_cons, List.mem_singleton] at hx
      rcases hx with rfl | rfl | rfl | rfl | hx
      · exact h1
      · exact h2
      · exact h3
      · exact h4
      · cases hx
    · cases h

theorem yearMatch_complete {ys : List Char} (r : List Char) (hlen : ys.length = 4)
    (hd : ∀ c ∈ ys, c.isDigit = true) :
    yearMatch (ys ++ r) = some (natOfDigits ys, r) := by
  match ys, hlen with
  | [a, b, c, d], _ =>
    have h1 : a.isDigit = true := hd a (by simp)
    have h2 : b.isDigit = true := hd b (by simp)
    have h3 : c.isDigit = true := hd c (by simp)
    have h4 : d.isDigit = true := hd d (by simp)
    simp only [List.cons_append, List.nil_append, yearMatch]
    rw [if_pos ⟨h1, h2, h3, h4⟩, natOfDigits_quad]

theorem dayMatches_slash_unique {l : List Char} {v v2 : Nat} {r r2 : List Char}
    (h1 : (v, '/' :: r) ∈ dayMatches l) (h2 : (v2, '/' :: r2) ∈ dayMatches l) :
    v = v2 ∧ r = r2 := by
  match l with
  | [] => cases h1
  | [c1] =>
    simp only [dayMatches, mem_ite_nil, List.mem_singleton, Prod.mk.injEq] at h1
    exact absurd h1.2.2 (by simp)
  | c1 :: c2 :: rest =>
    simp only [dayMatches, List.mem_append, mem_ite_nil, List.mem_singleton,
      Prod.mk.injEq] at h1 h2
    rcases h1 with (((⟨hcond1, hv1, ht1⟩ | ⟨hcond1, hv1, ht1⟩) | ⟨hcond1, hv1, ht1⟩) |
      ⟨hcond1, hv1, ht1⟩) <;>
    rcases h2 with (((⟨hcond2, hv2, ht2⟩ | ⟨hcond2, hv2, ht2⟩) | ⟨hcond2, hv2, ht2⟩) |
      ⟨hcond2, hv2, ht2⟩) <;>
    subst_vars <;> (try simp_all) <;>
    first
      | (obtain ⟨hsl, -⟩ := ht2
         subst hsl
         exact absurd hcond1.2 (by decide))
      | (obtain ⟨hsl, -⟩ := ht1
         subst hsl
         exact absurd hcond2.2 (by decide))

theorem monthMatches_slash_unique {l : List Char} {v v2 : Nat} {r r2 : List Char}
    (h1 : (v, '/' :: r) ∈ monthMatches l) (h2 : (v2, '/' :: r2) ∈ monthMatches l) :
    v = v2 ∧ r = r2 := by
  match l with
  | [] => cases h1
  | [c1] =>
    simp only [monthMatches, mem_ite_nil, List.mem_singleton, Prod.mk.injEq] at h1
    exact absurd h1.2.2 (by simp)
  | c1 :: c2 :: rest =>
    simp only [monthMatches, List.mem_append, mem_ite_nil, List.mem_singleton,
      Prod.mk.injEq] at h1 h2
    rcases h1 with ((⟨hcond1, hv1, ht1⟩ | ⟨hcond1, hv1, ht1⟩) | ⟨hcond1, hv1, ht1⟩) <;>
    rcases h2 with ((⟨hcond2, hv2, ht2⟩ | ⟨hcond2, hv2, ht2⟩) | ⟨hcond2, hv2, ht2⟩) <;>
    subst_vars <;> (try simp_all) <;>
    first
      | (obtain ⟨hsl, -⟩ := ht2
         subst hsl
         exact absurd hcond1.2 (by decide))
      | (obtain ⟨hsl, -⟩ := ht1
         subst hsl
         exact absurd hcond2.2 (by decide))

theorem dmyParses_sound {l : List Char} {x : Nat × Nat × Nat} (h : x ∈ dmyParses l) :
    ∃ ds ms ys, l = ds ++ '/' :: (ms ++ '/' :: ys) ∧
      (∀ c ∈ ds, c.isDigit = true) ∧ (ds.length = 1 ∨ ds.length = 2) ∧
      natOfDigits ds = x.1 ∧ 1 ≤ x.1 ∧ x.1 ≤ 31 ∧
      (∀ c ∈ ms, c.isDigit = true) ∧ (ms.length = 1 ∨ ms.length = 2) ∧
      natOfDigits ms = x.2.1 ∧ 1 ≤ x.2.1 ∧ x.2.1 ≤ 12 ∧
      (∀ c ∈ ys, c.isDigit = true) ∧ ys.length = 4 ∧ natOfDigits ys = x.2.2 := by
  rw [dmyParses, List.mem_flatMap] at h
  obtain ⟨dm, hdm, h⟩ := h
  split at h
  · rename_i r2 heq2
    rw [List.mem_flatMap] at h
    obtain ⟨mm, hmm, h⟩ := h
    split at h
    · rename_i r4 heq4
      split at h
      · rename_i y hyr
        rw [List.mem_singleton] at h
        subst h
        obtain ⟨ds, hld, hdd, hdl, hdv, hdlo, hdhi⟩ := dayMatches_sound hdm
        obtain ⟨ms, hlm, hmd, hml, hmv, hmlo, hmhi⟩ := monthMatches_sound hmm
        obtain ⟨ys, hly, hyl4, hyd, hyv⟩ := yearMatch_sound hyr
        rw [List.append_nil] at hly
        refine ⟨ds, ms, ys, ?_, hdd, hdl, hdv, hdlo, hdhi, hmd, hml, hmv, hmlo, hmhi,
          hyd, hyl4, hyv⟩
        rw [hld, heq2, hlm, heq4, hly]
      · cases h
    · cases h
  · cases h

theorem dmyParses_complete {ds ms ys : List Char}
    (hdd : ∀ c ∈ ds, c.isDigit = true) (hdl : ds.length = 1 ∨ ds.length = 2)
    (hd1 : 1 ≤ natOfDigits ds) (hd31 : natOfDigits ds ≤ 31)
    (hmd : ∀ c ∈ ms, c.isDigit = true) (hml : ms.length = 1 ∨ ms.length = 2)
    (hm1 : 1 ≤ natOfDigits ms) (hm12 : natOfDigits ms ≤ 12)
    (hyd : ∀ c ∈ ys, c.isDigit = true) (hyl : ys.length = 4) :
    (natOfDigits ds, natOfDigits ms, natOfDigits ys) ∈
      dmyParses (ds ++ '/' :: (ms ++ '/' :: ys)) := by
  have hday : (natOfDigits ds, '/' :: (ms ++ '/' :: ys)) ∈
      dayMatches (ds ++ '/' :: (ms ++ '/' :: ys)) := by
    rcases hdl with h1 | h2
    · match ds, h1 with
      | [c], _ =>
        have hd := hdd c (by simp)
        have hmem := dayMatches_complete_one ('/' :: (ms ++ '/' :: ys)) hd
          (by rw [← natOfDigits_singleton c]; exact hd1)
        rw [natOfDigits_singleton]
        simpa using hmem
    · match ds, h2 with
      | [c1, c2], _ =>
        have hc1 := hdd c1 (by simp)
        have hc2 := hdd c2 (by simp)
        have hmem := dayMatches_complete_two ('/' :: (ms ++ '/' :: ys)) hc1 hc2
          (by rw [← natOfDigits_pair]; exact hd1) (by rw [← natOfDigits_pair]; exact hd31)
        rw [natOfDigits_pair]
        simpa using hmem
  have hmonth : (natOfDigits ms, '/' :: ys) ∈ monthMatches (ms ++ '/' :: ys) := by
    rcases hml with h1 | h2
    · match ms, h1 with
      | [c], _ =>
        have hd := hmd c (by simp)
        have hmem := monthMatches_complete_one ('/' :: ys) hd
          (by rw [← natOfDigits_singleton c]; exact hm1)
        rw [natOfDigits_singleton]
        simpa using hmem
    · match ms, h2 with
      | [c1, c2], _ =>
        have hc1 := hmd c1 (by simp)
        have hc2 := hmd c2 (by simp)
        have hmem := monthMatches_complete_two ('/' :: ys) hc1 hc2
          (by rw [← natOfDigits_pair]; exact hm1) (by rw [← natOfDigits_pair]; exact hm12)
        rw [natOfDigits_pair]
        simpa using hmem
  have hyear : yearMatch ys = some (natOfDigits ys, []) := by
    have := yearMatch_complete [] hyl hyd
    simpa using this
  rw [dmyParses, List.mem_flatMap]
  refine ⟨(natOfDigits ds, '/' :: (ms ++ '/' :: ys)), hday, ?_⟩
  show (natOfDigits ds, natOfDigits ms, natOfDigits ys) ∈
    (monthMatches (ms ++ '/' :: ys)).flatMap (fun mm =>
      match mm.2 with
      | '/' :: r4 =>
        match yearMatch r4 with
        | some (y, []) => [(natOfDigits ds, mm.1, y)]
        | _ => []
      | _ => [])
  rw [List.mem_flatMap]
  refine ⟨(natOfDigits ms, '/' :: ys), hmonth, ?_⟩
  show (natOfDigits ds, natOfDigits ms, natOfDigits ys) ∈
    (match yearMatch ys with
     | some (y, []) => [(natOfDigits ds, natOfDigits ms, y)]
     | _ => [])
  rw [hyear]
  simp

theorem dmyParses_mem_unique {l : List Char} {x z : Nat × Nat × Nat}
    (hx : x ∈ dmyParses l) (hz : z ∈ dmyParses l) : x = z := by
  rw [dmyParses, List.mem_flatMap] at hx hz
  obtain ⟨dmx, hdmx, hx⟩ := hx
  obtain ⟨dmz, hdmz, hz⟩ := hz
  split at hx
  · rename_i r2x heq2x
    rw [List.mem_flatMap] at hx
    obtain ⟨mmx, hmmx, hx⟩ := hx
    split at hx
    · rename_i r4x heq4x
      split at hx
      · rename_i yx hyrx
        rw [List.mem_singleton] at hx
        split at hz
        · rename_i r2z heq2z
          rw [List.mem_flatMap] at hz
          obtain ⟨mmz, hmmz, hz⟩ := hz
          split at hz
          · rename_i r4z heq4z
            split at hz
            · rename_i yz hyrz
              rw [List.mem_singleton] at hz
              have hdx : (dmx.1, '/' :: r2x) ∈ dayMatches l := by
                rw [← heq2x]
                exact hdmx
              have hdz : (dmz.1, '/' :: r2z) ∈ dayMatches l := by
                rw [← heq2z]
                exact hdmz
              obtain ⟨hdv, hdr⟩ := dayMatches_slash_unique hdx hdz
              subst hdr
              have hmx : (mmx.1, '/' :: r4x) ∈ monthMatches r2x := by
                rw [← heq4x]
                exact hmmx
              have hmz : (mmz.1, '/' :: r4z) ∈ monthMatches r2x := by
                rw [← heq4z]
                exact hmmz
              obtain ⟨hmv, hmr⟩ := monthMatches_slash_unique hmx hmz
              subst hmr
              have hyy : yx = yz := by
                rw [hyrx] at hyrz
                have := Option.some.inj hyrz
                exact congrArg Prod.fst this
              rw [hx, hz, hdv, hmv, hyy]
            · cases hz
          · cases hz
        · cases hz
      · cases hx
    · cases hx
  · cases hx

theorem daysInMonth_le_31 (y m : Nat) : daysInMonth y m ≤ 31 := by
  unfold daysInMonth
  split
  · split <;> omega
  · split <;> omega

/-! ## Claims about the Validator (C3, C4, C6) -/

/-- C3, counterexample to the claim as stated: is_valid_medicare_number
accepts a ten-digit string followed by one trailing newline, which does not
consist of exactly ten decimal digits, because the dollar anchor of the
source regex also matches just before a newline ending the string. -/
theorem medicare_newline_counterexample :
    is_valid_medicare_number "1234567890\n" = true ∧
    ¬ specExactDigits 10 "1234567890\n".data := by
  constructor
  · decide
  · intro h
    have := h.1
    simp at this

/-- C3, amended: validate_field accepts a medicare_number value if and only
if the whole string consists of exactly ten decimal digits, optionally
followed by one trailing newline; consequently validate_data on the map
with medicare_number 1234567890 returns an empty result, and on the map
with medicare_number 12345 returns a result containing the key
medicare_number with an error message. -/
theorem medicare_rule_amended :
    (∀ s : String, is_valid_medicare_number s = true ↔
      (specExactDigits 10 s.data ∨ ∃ l, s.data = l ++ ['\n'] ∧ specExactDigits 10 l)) ∧
    validate_data [("medicare_number", "1234567890")] = [] ∧
    ("medicare_number", "Invalid Medicare Number format.") ∈
      validate_data [("medicare_number", "12345")] := by
  refine ⟨fun s => matchDollar_iff (fun l => digitsExactly_iff) s, by decide, by decide⟩

/-- C4, counterexample to the claim as stated: is_valid_request_number
accepts 24H12345 followed by one trailing newline, which is not the literal
prefix 24H followed by exactly five digits over the whole string, because
the dollar anchor of the source regex also matches just before a newline
ending the string. -/
theorem request_newline_counterexample :
    is_valid_request_number "24H12345\n" = true ∧
    ¬ specRequestFormat "24H12345\n".data := by
  constructor
  · decide
  · rintro ⟨ds, hds, hlen, -⟩
    rw [show "24H12345\n".data = '2' :: '4' :: 'H' :: "12345\n".data from rfl] at hds
    have : ds = "12345\n".data := by
      injection hds with h1 h2
      injection h2 with h3 h4
      injection h4 with h5 h6
      exact h6.symm
    rw [this] at hlen
    simp at hlen

/-- C4, amended: validate_field accepts a request_number value if and only
if the whole string is the literal prefix 24H followed by exactly five
decimal digits, optionally followed by one trailing newline; consequently
24H12345 is accepted and 25H12345 is rejected, and validate_data reports
the request_number key exactly for the failing one. -/
theorem request_rule_amended :
    (∀ s : String, is_valid_request_number s = true ↔
      (specRequestFormat s.data ∨ ∃ l, s.data = l ++ ['\n'] ∧ specRequestFormat l)) ∧
    is_valid_request_number "24H12345" = true ∧
    is_valid_request_number "25H12345" = false ∧
    validate_data [("request_number", "24H12345")] = [] ∧
    ("request_number", "Invalid Request Number format.") ∈
      validate_data [("request_number", "25H12345")] := by
  refine ⟨fun s => matchDollar_iff (fun l => requestCore_iff) s, by decide, by decide,
    by decide, by decide⟩

/-- C6: validate_data produces an entry for a field name exactly when that
field has a rule in the rule table, is present in the input map, and its
value fails the rule; a field absent from the input map, or without a rule,
never appears in the result. -/
theorem validate_data_keys_iff (data : List (String × String)) (f : String) :
    (∃ msg, (f, msg) ∈ validate_data data) ↔
      ∃ rule msg, (f, rule, msg) ∈ fieldRules ∧
        ∃ v, lookupField data f = some v ∧ rule v = false := by
  constructor
  · rintro ⟨msg, hmem⟩
    rw [validate_data, List.mem_filterMap] at hmem
    obtain ⟨a, ha, hga⟩ := hmem
    cases hv : lookupField data a.1 with
    | none => rw [hv] at hga; cases hga
    | some v =>
      rw [hv] at hga
      change (if a.2.1 v = true then none else some (a.1, a.2.2)) = some (f, msg) at hga
      by_cases hr : a.2.1 v = true
      · rw [if_pos hr] at hga; cases hga
      · rw [if_neg hr] at hga
        have hfm : a.1 = f ∧ a.2.2 = msg := by
          have := Option.some.inj hga
          exact ⟨congrArg Prod.fst this, congrArg Prod.snd this⟩
        obtain ⟨hf, hm⟩ := hfm
        refine ⟨a.2.1, a.2.2, ?_, v, by rw [← hf]; exact hv, by simpa using hr⟩
        rw [← hf]
        simpa using ha
  · rintro ⟨rule, msg, hmem, v, hv, hfail⟩
    refine ⟨msg, ?_⟩
    rw [validate_data, List.mem_filterMap]
    refine ⟨(f, rule, msg), hmem, ?_⟩
    simp only [hv]
    rw [if_neg (by simp [hfail])]

/-! ## Claims about the dashboard (C9, C10) -/

theorem confidenceScores_eq_map_num (records : List DashRecord)
    (hnum : ∀ r ∈ records, getField r "ocr_confidence" = JsValue.null ∨
      ∃ q, getField r "ocr_confidence" = JsValue.num q) :
    confidenceScores records = (numericConfidences records).map JsValue.num := by
  induction records with
  | nil => rfl
  | cons r rs ih =>
    have hr := hnum r (by simp)
    have ih2 := ih (fun x hx => hnum x (by simp [hx]))
    rcases hr with h | ⟨q, h⟩
    · simpa [confidenceScores, numericConfidences, List.filter_cons, List.filterMap_cons, h]
        using ih2
    · simpa [confidenceScores, numericConfidences, List.filter_cons, List.filterMap_cons, h]
        using ih2

theorem foldl_jsAdd_num (qs : List ℚ) (a : ℚ) :
    (qs.map JsValue.num).foldl jsAdd (JsValue.num a) = JsValue.num (a + qs.sum) := by
  induction qs generalizing a with
  | nil => simp
  | cons q qs ih => simp [jsAdd, ih, add_assoc]

/-- C9: calculateAverageConfidence never throws and never yields a
non-number on records whose confidence field is a number or null: with no
numeric confidence at all, in particular on the empty list, it returns the
number 0, and otherwise the mean of the non-null confidences rounded to
two decimal places. -/
theorem calculateAverageConfidence_spec (records : List DashRecord)
    (hnum : ∀ r ∈ records, getField r "ocr_confidence" = JsValue.null ∨
      ∃ q, getField r "ocr_confidence" = JsValue.num q) :
    (numericConfidences records = [] → calculateAverageConfidence records = some 0) ∧
    ∀ q qs, numericConfidences records = q :: qs →
      calculateAverageConfidence records =
        some (jsToFixed2 ((q :: qs).sum / ((q :: qs).length : ℚ))) := by
  have hs := confidenceScores_eq_map_num records hnum
  constructor
  · intro h0
    rw [calculateAverageConfidence, hs, h0]
    simp
  · intro q qs hqs
    rw [calculateAverageConfidence, hs, hqs]
    simp only [List.map_cons, List.length_cons, List.length_map]
    rw [if_pos (Nat.succ_pos _)]
    simp [jsReduce, foldl_jsAdd_num, List.sum_cons]

/-- C10: the sorted view is the records array itself when no sort key is
set and otherwise a reordering of it obtained by sorting a copy, so the
records array is left unchanged, and every element of the filtered view is
an element of the records array. -/
theorem dashboard_sort_filter_frame (jsLt : JsValue → JsValue → Bool)
    (dateVal : JsValue → ℚ) (numToString : ℚ → String)
    (containsLower : String → String → Bool) (records : List DashRecord)
    (cfg : SortConfig) (term : String) :
    (∀ d, sortedRecords jsLt dateVal records ⟨none, d⟩ = records) ∧
    List.Perm (sortedRecords jsLt dateVal records cfg) records ∧
    ∀ r ∈ filteredRecords jsLt dateVal numToString containsLower records cfg term,
      r ∈ records := by
  have hperm : List.Perm (sortedRecords jsLt dateVal records cfg) records := by
    rcases cfg with ⟨key, dir⟩
    cases key with
    | none => exact List.Perm.refl records
    | some k => exact List.mergeSort_perm records _
  refine ⟨fun d => rfl, hperm, ?_⟩
  intro r hr
  have hr2 : r ∈ sortedRecords jsLt dateVal records cfg :=
    (List.mem_filter.mp hr).1
  exact hperm.mem_iff.mp hr2

/-! ## Claims about the preparer (C1, C2) -/

theorem cropRect_height_le (img : BgrImage) (x1 y1 x2 y2 : Nat) :
    (cropRect img x1 y1 x2 y2).length ≤ img.length := by
  simp only [cropRect, List.length_map, List.length_take, List.length_drop]
  omega

theorem imgWidth_cropRect_le (img : BgrImage) (x1 y1 x2 y2 : Nat) :
    imgWidth (cropRect img x1 y1 x2 y2) ≤ x2 := by
  unfold cropRect
  cases h : (img.drop y1).take (y2 - y1) with
  | nil => simp [imgWidth, h]
  | cons row rows =>
    simp only [h, List.map_cons, imgWidth, List.length_take, List.length_drop]
    omega

theorem cropDetected_dims (finder : ContourFinder) (img : BgrImage) (cr : ColorRange)
    (minArea : ℚ) :
    imgHeight (cropDetected finder img cr minArea) ≤ imgHeight img ∧
    imgWidth (cropDetected finder img cr minArea) ≤ imgWidth img := by
  simp only [cropDetected]
  by_cases he : (finder img cr).isEmpty
  · rw [if_pos he]
    exact ⟨le_refl _, le_refl _⟩
  · rw [if_neg he]
    cases hf : (finder img cr).filter (fun c => minArea ≤ c.area) with
    | nil => exact ⟨le_refl _, le_refl _⟩
    | cons v rest =>
      constructor
      · exact cropRect_height_le img _ _ _ _
      · exact le_trans (imgWidth_cropRect_le img _ _ _ _) (min_le_right _ _)

theorem cropDetected_degraded (finder : ContourFinder) (img : BgrImage) (cr : ColorRange)
    (minArea : ℚ)
    (h : finder img cr = [] ∨ ∀ c ∈ finder img cr, ¬ minArea ≤ c.area) :
    cropDetected finder img cr minArea = img := by
  simp only [cropDetected]
  rcases h with h | h
  · rw [if_pos (by rw [h]; rfl)]
  · have hf : (finder img cr).filter (fun c => minArea ≤ c.area) = [] :=
      List.filter_eq_nil_iff.mpr (by intro a ha; simpa using h a ha)
    by_cases he : (finder img cr).isEmpty
    · rw [if_pos he]
    · rw [if_neg he, hf]

/-- C1: for a supported color, crop_to_border always returns an image, of
height and width bounded by those of the input, and when the contour stage
yields no contour, or none whose area reaches the threshold, it returns the
original image unmodified. -/
theorem crop_to_border_safe (finder : ContourFinder) (img : BgrImage) (color : String)
    (minArea : ℚ) (entry : String × ColorRange)
    (hcolor : COLOR_RANGES.find? (fun p => p.1 == color) = some entry) :
    (∃ out, crop_to_border finder img color minArea = Except.ok out ∧
      imgHeight out ≤ imgHeight img ∧ imgWidth out ≤ imgWidth img) ∧
    ((finder img entry.2 = [] ∨ ∀ c ∈ finder img entry.2, ¬ minArea ≤ c.area) →
      crop_to_border finder img color minArea = Except.ok img) := by
  have hcrop : crop_to_border finder img color minArea =
      Except.ok (cropDetected finder img entry.2 minArea) := by
    rw [crop_to_border, hcolor]
  constructor
  · exact ⟨cropDetected finder img entry.2 minArea, hcrop,
      (cropDetected_dims finder img entry.2 minArea).1,
      (cropDetected_dims finder img entry.2 minArea).2⟩
  · intro h
    rw [hcrop, cropDetected_degraded finder img entry.2 minArea h]

/-- C2: a border color absent from the registry makes both crop_to_border
and prepare_form fail with the unsupported-color error, and a color present
in the registry makes both return an image, never that error. -/
theorem unsupported_color_spec (finder : ContourFinder) (resize : Resizer)
    (img : BgrImage) (target : Nat × Nat) (color : String) (minArea : ℚ) :
    ((COLOR_RANGES.find? (fun p => p.1 == color) = none) →
      crop_to_border finder img color minArea =
        Except.error (.unsupportedColor (COLOR_RANGES.map (fun p => p.1))) ∧
      prepare_form finder resize img target color =
        Except.error (.unsupportedColor (COLOR_RANGES.map (fun p => p.1)))) ∧
    (∀ entry, COLOR_RANGES.find? (fun p => p.1 == color) = some entry →
      (∃ out, crop_to_border finder img color minArea = Except.ok out) ∧
      ∃ out, prepare_form finder resize img target color = Except.ok out) := by
  constructor
  · intro hnone
    constructor
    · rw [crop_to_border, hnone]
    · rw [prepare_form, if_pos (by rw [hnone]; rfl)]
  · intro entry hsome
    have hcrop : crop_to_border finder img color minContourAreaDefault =
        Except.ok (cropDetected finder img entry.2 minContourAreaDefault) := by
      rw [crop_to_border, hsome]
    constructor
    · exact ⟨cropDetected finder img entry.2 minArea, by rw [crop_to_border, hsome]⟩
    · refine ⟨scale_image resize (cropDetected finder img entry.2 minContourAreaDefault)
        target, ?_⟩
      rw [prepare_form, if_neg (by rw [hsome]; simp), hcrop]

/-! ## Claims about the preprocessor (C7, C8) -/

theorem adjustSampleAdd_le (b : ℤ) (v : Nat) : adjustSampleAdd b v ≤ 255 := by
  unfold adjustSampleAdd clampByte
  rw [Int.toNat_le]
  exact le_trans (min_le_left _ _) (by norm_num)

theorem adjustSampleAffine_le (f : ℚ) (b : ℤ) (v : Nat) :
    adjustSampleAffine f b v ≤ 255 := by
  unfold adjustSampleAffine clampByte
  rw [Int.toNat_le]
  exact le_trans (min_le_left _ _) (by norm_num)

theorem adjustSampleAdd_zero (v : Nat) (hv : v ≤ 255) : adjustSampleAdd 0 v = v := by
  unfold adjustSampleAdd clampByte
  norm_num
  omega

theorem remapAdjust_fifty : remapAdjust 50 = 0 := by
  norm_num [remapAdjust, pyInt]

theorem remapAdjust_zero : remapAdjust 0 = -127 := by
  have h1 : (((0 : Nat) : ℚ) - 50) * 2.55 = -(255 / 2) := by norm_num
  unfold remapAdjust pyInt
  rw [h1, if_pos (by norm_num), Int.ceil_eq_iff]
  norm_num

/-- C7, counterexample to the claim as stated: with brightness 0 and
contrast 0 the source remaps both arguments by int of the argument minus 50
times 2.55, giving remapped contrast minus 127, gain 0 and offset minus
127, so every pixel is driven to black; the transform is not the identity
there.  The neutral point of the UI scale is 50, 50. -/
theorem adjust_zero_zero_counterexample :
    adjust_brightness_contrast [[(200, 200, 200)]] 0 0 = some [[(0, 0, 0)]] ∧
    adjust_brightness_contrast [[(200, 200, 200)]] 0 0 ≠ some [[(200, 200, 200)]] := by
  have hcf : contrastFactor (-127) = 0 := by
    norm_num [contrastFactor, contrastDenom]
  have hden : contrastDenom (-127) ≠ 0 := by norm_num [contrastDenom]
  have hs : adjustSampleAffine (contrastFactor (-127)) (-127) 200 = 0 := by
    rw [hcf]
    show (clampByte (round ((0 : ℚ) * ((200 : Nat) : ℚ) +
      (((-127 : ℤ) : ℚ) - (0 : ℚ) * 127)))).toNat = 0
    have hround : (0 : ℚ) * ((200 : Nat) : ℚ) + (((-127 : ℤ) : ℚ) - (0 : ℚ) * 127) =
        ((-127 : ℤ) : ℚ) := by
      push_cast
      ring
    rw [hround, round_intCast]
    decide
  unfold adjust_brightness_contrast
  rw [remapAdjust_zero, if_neg (by decide), if_neg hden]
  constructor
  · simp [hs]
  · simp [hs]
    decide

/-- C7, amended: adjust_brightness_contrast is the identity transform at
the neutral settings brightness 50, contrast 50 of its 0 to 100 UI scale
(brightness 0, contrast 0 instead darkens every pixel by the remapped
offset of minus 127, and contrast 100 makes the gain denominator zero so
the call raises instead of returning), and whenever it returns an image,
every sample of that image lies in the 8-bit range, with no wraparound. -/
theorem adjust_brightness_contrast_spec (img : BgrImage)
    (hwf : ∀ row ∈ img, ∀ p ∈ row, p.1 ≤ 255 ∧ p.2.1 ≤ 255 ∧ p.2.2 ≤ 255) :
    adjust_brightness_contrast img 50 50 = some img ∧
    ∀ b c : Nat, ∀ out, adjust_brightness_contrast img b c = some out →
      ∀ row ∈ out, ∀ p ∈ row, p.1 ≤ 255 ∧ p.2.1 ≤ 255 ∧ p.2.2 ≤ 255 := by
  constructor
  · unfold adjust_brightness_contrast
    rw [remapAdjust_fifty, if_pos rfl]
    congr 1
    conv_rhs => rw [← List.map_id img]
    apply List.map_congr_left
    intro row hrow
    conv_rhs => rw [id_eq, ← List.map_id row]
    apply List.map_congr_left
    intro p hp
    obtain ⟨h1, h2, h3⟩ := hwf row hrow p hp
    rw [id_eq, adjustSampleAdd_zero p.1 h1, adjustSampleAdd_zero p.2.1 h2,
      adjustSampleAdd_zero p.2.2 h3]
  · intro b c out hout row hrow p hp
    unfold adjust_brightness_contrast at hout
    by_cases hc : remapAdjust c = 0
    · rw [if_pos hc] at hout
      obtain rfl := Option.some.inj hout
      obtain ⟨row0, -, rfl⟩ := List.mem_map.mp hrow
      obtain ⟨p0, -, rfl⟩ := List.mem_map.mp hp
      exact ⟨adjustSampleAdd_le _ p0.1, adjustSampleAdd_le _ p0.2.1,
        adjustSampleAdd_le _ p0.2.2⟩
    · rw [if_neg hc] at hout
      by_cases hd : contrastDenom (remapAdjust c) = 0
      · rw [if_pos hd] at hout
        cases hout
      · rw [if_neg hd] at hout
        obtain rfl := Option.some.inj hout
        obtain ⟨row0, -, rfl⟩ := List.mem_map.mp hrow
        obtain ⟨p0, -, rfl⟩ := List.mem_map.mp hp
        exact ⟨adjustSampleAffine_le _ _ p0.1, adjustSampleAffine_le _ _ p0.2.1,
          adjustSampleAffine_le _ _ p0.2.2⟩

/-- C8, counterexample to the claim as stated: a pixel whose gray value
equals the threshold is mapped to 0, not to 255, because THRESH_BINARY
whitens only samples strictly above the threshold. -/
theorem binarize_threshold_equal_counterexample :
    binarize_image [[(100, 100, 100)]] 100 = [[0]] ∧ 100 ≤ bgr2gray (100, 100, 100) := by
  constructor <;> decide

/-- C8, amended: every pixel of the binarized image is 0 or 255, and a
pixel maps to 255 exactly when its gray conversion is strictly greater than
the threshold. -/
theorem binarize_image_spec (img : BgrImage) (t : Nat) :
    (∀ row ∈ binarize_image img t, ∀ p ∈ row, p = 0 ∨ p = 255) ∧
    ∀ i j p, pixelAt img i j = some p →
      (pixelAt (binarize_image img t) i j = some 255 ↔ t < bgr2gray p) := by
  constructor
  · intro row hrow p hp
    rw [binarize_image] at hrow
    obtain ⟨row0, -, rfl⟩ := List.mem_map.mp hrow
    obtain ⟨p0, -, rfl⟩ := List.mem_map.mp hp
    by_cases hlt : t < bgr2gray p0
    · right; rw [if_pos hlt]
    · left; rw [if_neg hlt]
  · intro i j p hpix
    rw [pixelAt, Option.bind_eq_bind, Option.bind_eq_some] at hpix
    obtain ⟨row, hrow, hj⟩ := hpix
    rw [binarize_image, pixelAt, Option.bind_eq_bind, Option.bind_eq_some]
    constructor
    · rintro ⟨row2, hrow2, hj2⟩
      rw [List.getElem?_map, hrow, Option.map_some'] at hrow2
      cases hrow2
      rw [List.getElem?_map, hj, Option.map_some'] at hj2
      have := Option.some.inj hj2
      by_cases hlt : t < bgr2gray p
      · exact hlt
      · rw [if_neg hlt] at this; cases this
    · intro hlt
      refine ⟨row.map (fun p => if t < bgr2gray p then 255 else 0), ?_, ?_⟩
      · rw [List.getElem?_map, hrow, Option.map_some']
      · rw [List.getElem?_map, hj]
        simp [hlt]

/-! ## Claim about the date rule (C5) -/

/-- C5: is_valid_date accepts a string exactly when the whole string parses
as a real calendar date in day slash month slash four-digit-year format; in
particular the impossible calendar date 31/02/2020 is rejected although it
matches the digit pattern, and 01/01/2000 is accepted, and validate_data
reports the date fields accordingly. -/
theorem date_rule_iff :
    (∀ s : String, is_valid_date s = true ↔ specRealDate s) ∧
    is_valid_date "31/02/2020" = false ∧
    is_valid_date "01/01/2000" = true ∧
    ("date_of_birth", "Invalid Date of Birth format.") ∈
      validate_data [("date_of_birth", "31/02/2020")] ∧
    validate_data [("request_date", "01/01/2000")] = [] := by
  refine ⟨?_, by decide, by decide, by decide, by decide⟩
  intro s
  unfold is_valid_date strptimeDMY
  constructor
  · intro h
    cases hh : (dmyParses s.data).head? with
    | none => rw [hh] at h; cases h
    | some t =>
      rw [hh] at h
      obtain ⟨d, m, y⟩ := t
      have hb : 1 ≤ y ∧ d ≤ daysInMonth y m := by
        have h2 : (decide (1 ≤ y) && decide (d ≤ daysInMonth y m)) = true := h
        simpa using h2
      have hmem : (d, m, y) ∈ dmyParses s.data := List.mem_of_mem_head? hh
      obtain ⟨ds, ms, ys, hsplit, hdd, hdl, hdv, hdlo, hdhi, hmd, hml, hmv, hmlo, hmhi,
        hyd, hyl, hyv⟩ := dmyParses_sound hmem
      refine ⟨ds, ms, ys, hsplit, hdd, by omega, by omega, hmd, by omega, by omega,
        hyd, hyl, ?_, ?_, ?_, ?_, ?_⟩
      · rw [hyv]; exact hb.1
      · rw [hmv]; exact hmlo
      · rw [hmv]; exact hmhi
      · rw [hdv]; exact hdlo
      · rw [hdv, hmv, hyv]; exact hb.2
  · rintro ⟨ds, ms, ys, hsplit, hdd, hdl1, hdl2, hmd, hml1, hml2, hyd, hyl,
      hy1, hm1, hm12, hd1, hdm⟩
    have hd31 : natOfDigits ds ≤ 31 := le_trans hdm (daysInMonth_le_31 _ _)
    have hcomp := dmyParses_complete hdd (by omega) hd1 hd31 hmd (by omega) hm1 hm12 hyd hyl
    rw [← hsplit] at hcomp
    cases hh : (dmyParses s.data).head? with
    | none =>
      rw [List.head?_eq_none_iff] at hh
      rw [hh] at hcomp
      cases hcomp
    | some t =>
      have ht : t ∈ dmyParses s.data := List.mem_of_mem_head? hh
      have hts := dmyParses_mem_unique ht hcomp
      rw [hts]
      show (decide (1 ≤ natOfDigits ys) &&
        decide (natOfDigits ds ≤ daysInMonth (natOfDigits ys) (natOfDigits ms))) = true
      simp only [Bool.and_eq_true, decide_eq_true_eq]
      exact ⟨hy1, hdm⟩

/-! ## Witnesses -/

/-- Witness for C1 at a concrete contour stage, image and color. -/
theorem crop_to_border_safe_witness :
    crop_to_border (fun _ _ => []) [[(0, 0, 0)]] "blue" 5000 = Except.ok [[(0, 0, 0)]] :=
  (crop_to_border_safe (fun _ _ => []) [[(0, 0, 0)]] "blue" 5000
    ("blue", ⟨(100, 150, 50), (140, 255, 255)⟩) rfl).2 (Or.inl rfl)

/-- Witness for C2 at a concrete unsupported and a concrete supported
color. -/
theorem unsupported_color_spec_witness :
    crop_to_border (fun _ _ => []) [[(0, 0, 0)]] "purple" 5000 =
      Except.error (PrepError.unsupportedColor ["blue", "black"]) ∧
    ∃ out, prepare_form (fun _ _ => []) (fun i _ => i) [[(0, 0, 0)]] (1600, 1024) "blue" =
      Except.ok out :=
  ⟨((unsupported_color_spec (fun _ _ => []) (fun i _ => i) [[(0, 0, 0)]] (1600, 1024)
      "purple" 5000).1 rfl).1,
   ((unsupported_color_spec (fun _ _ => []) (fun i _ => i) [[(0, 0, 0)]] (1600, 1024)
      "blue" 5000).2 ("blue", ⟨(100, 150, 50), (140, 255, 255)⟩) rfl).2⟩

/-- Witness for C3 at a concrete ten-digit string. -/
theorem medicare_rule_amended_witness :
    is_valid_medicare_number "1234567890" = true :=
  (medicare_rule_amended.1 "1234567890").mpr (Or.inl ⟨by decide, by decide⟩)

/-- Witness for C4 at a concrete request number. -/
theorem request_rule_amended_witness :
    is_valid_request_number "24H00000" = true :=
  (request_rule_amended.1 "24H00000").mpr
    (Or.inl ⟨['0', '0', '0', '0', '0'], by decide, by decide, by decide⟩)

/-- Witness for C5 at a concrete date string. -/
theorem date_rule_iff_witness : is_valid_date "05/06/2021" = true :=
  (date_rule_iff.1 "05/06/2021").mpr
    ⟨['0', '5'], ['0', '6'], ['2', '0', '2', '1'], by decide, by decide, by decide,
      by decide, by decide, by decide, by decide, by decide, by decide, by decide,
      by decide, by decide, by decide, by decide⟩

/-- Witness for C6 at a concrete failing field map. -/
theorem validate_data_keys_iff_witness :
    ∃ msg, ("medicare_number", msg) ∈ validate_data [("medicare_number", "12345")] :=
  (validate_data_keys_iff [("medicare_number", "12345")] "medicare_number").mpr
    ⟨is_valid_medicare_number, "Invalid Medicare Number format.",
      List.mem_cons_self _ _, "12345", rfl, by decide⟩

/-- Witness for C7 at a concrete 8-bit image and the neutral settings. -/
theorem adjust_brightness_contrast_spec_witness :
    adjust_brightness_contrast [[(0, 128, 255)]] 50 50 = some [[(0, 128, 255)]] :=
  (adjust_brightness_contrast_spec [[(0, 128, 255)]] (by decide)).1

/-- Witness for C8 at a concrete image and threshold. -/
theorem binarize_image_spec_witness :
    pixelAt (binarize_image [[(100, 100, 100)]] 99) 0 0 = some 255 ↔
      99 < bgr2gray (100, 100, 100) :=
  (binarize_image_spec [[(100, 100, 100)]] 99).2 0 0 (100, 100, 100) rfl

/-- Witness for C9 at a concrete record list with one numeric
confidence. -/
theorem calculateAverageConfidence_spec_witness :
    calculateAverageConfidence [⟨[("ocr_confidence", JsValue.num 80)]⟩] =
      some (jsToFixed2 (((80 : ℚ) :: []).sum / ((((80 : ℚ) :: []).length : Nat) : ℚ))) :=
  (calculateAverageConfidence_spec [⟨[("ocr_confidence", JsValue.num 80)]⟩]
    (by
      intro r hr
      rw [List.mem_singleton] at hr
      subst hr
      exact Or.inr ⟨80, rfl⟩)).2 80 [] rfl

/-- Witness for C10 at a concrete record list and configuration. -/
theorem dashboard_sort_filter_frame_witness :
    List.Perm (sortedRecords (fun _ _ => false) (fun _ => 0)
      [⟨[("patient_id", JsValue.num 1)]⟩] ⟨some "patient_id", "asc"⟩)
      [⟨[("patient_id", JsValue.num 1)]⟩] :=
  (dashboard_sort_filter_frame (fun _ _ => false) (fun _ => 0) (fun _ => "")
    (fun _ _ => false) [⟨[("patient_id", JsValue.num 1)]⟩]
    ⟨some "patient_id", "asc"⟩ "").2.1

end DataEntry
